import Mathlib

/-!
Verification development for the unfurlbot Slack-unfurl dispatch pipeline
(`lsst-sqre/unfurlbot`).  The Python sources are shallowly embedded as
executable Lean definitions: strings are `String`/`List Char`, timestamps are
integer seconds, the Redis TTL store is an association list from serialized
keys to write times, and fallible code is modelled with explicit error values.
-/

namespace Unfurlbot

/-! ### `storage/unfurleventstore.py`: `SlackUnfurlEventKey.__str__`

The key serializes a debounce scope.  The token is encoded as
`token.encode("utf-8").hex()`; the thread segment is appended only when
`thread_ts` is truthy (neither `None` nor the empty string).
-/

/-- UTF-8 encoding of a single Unicode scalar value, as a list of byte
values (`str.encode("utf-8")`, one character at a time). -/
def utf8Bytes (c : Char) : List Nat :=
  let n := c.toNat
  if n < 128 then [n]
  else if n < 2048 then [192 + n / 64, 128 + n % 64]
  else if n < 65536 then [224 + n / 4096, 128 + n / 64 % 64, 128 + n % 64]
  else [240 + n / 262144, 128 + n / 4096 % 64, 128 + n / 64 % 64, 128 + n % 64]

/-- UTF-8 encoding of a character sequence (`str.encode("utf-8")`). -/
def utf8EncodeList : List Char → List Nat
  | [] => []
  | c :: cs => utf8Bytes c ++ utf8EncodeList cs

/-- `bytes.hex()`: two lowercase hexadecimal digits per byte. -/
def hexOfBytes : List Nat → List Char
  | [] => []
  | b :: bs => Nat.digitChar (b / 16) :: Nat.digitChar (b % 16) :: hexOfBytes bs

/-- `token.encode("utf-8").hex()` as used by `SlackUnfurlEventKey.__str__`. -/
def hexEncode (s : String) : String :=
  String.mk (hexOfBytes (utf8EncodeList s.data))

/-- `SlackUnfurlEventKey.__str__`: `f"unfurl:slack:{channel}:{token_hex}"`,
extended by `f":{thread_ts}"` only when `thread_ts` is truthy (Python
truthiness: not `None` and not `""`). -/
def slackUnfurlEventKey (channel : String) (token : String)
    (threadTs : Option String) : String :=
  let base := "unfurl:slack:" ++ channel ++ ":" ++ hexEncode token
  match threadTs with
  | some t => if t = "" then base else base ++ ":" ++ t
  | none => base

/-! #### Decodability of the UTF-8 and hex layers

These lemmas justify that the token segment of the key is injective: a
decoder recovers each scalar value from its UTF-8 bytes, and each byte from
its two hex digits.
-/

/-- Decode one UTF-8-encoded scalar value from the front of a byte list. -/
def utf8DecodeOne : List Nat → Option (Nat × List Nat)
  | [] => none
  | b :: r =>
    if b < 128 then some (b, r)
    else if b < 224 then
      match r with
      | b1 :: r1 => some ((b - 192) * 64 + (b1 - 128), r1)
      | [] => none
    else if b < 240 then
      match r with
      | b1 :: b2 :: r2 => some ((b - 224) * 4096 + (b1 - 128) * 64 + (b2 - 128), r2)
      | _ => none
    else
      match r with
      | b1 :: b2 :: b3 :: r3 =>
        some ((b - 240) * 262144 + (b1 - 128) * 4096 + (b2 - 128) * 64 + (b3 - 128), r3)
      | _ => none

theorem char_toNat_lt (c : Char) : c.toNat < 1114112 := by
  have h := c.valid
  rcases h with h | h
  · exact Nat.lt_trans h (by norm_num)
  · exact h.2

theorem utf8DecodeOne_encode (c : Char) (r : List Nat) :
    utf8DecodeOne (utf8Bytes c ++ r) = some (c.toNat, r) := by
  have hv : c.toNat < 1114112 := char_toNat_lt c
  unfold utf8Bytes
  by_cases h1 : c.toNat < 128
  · simp [utf8DecodeOne, h1]
  · by_cases h2 : c.toNat < 2048
    · have ha : ¬ (192 + c.toNat / 64 < 128) := by omega
      have hb : 192 + c.toNat / 64 < 224 := by omega
      have hval : (192 + c.toNat / 64 - 192) * 64 + (128 + c.toNat % 64 - 128)
          = c.toNat := by omega
      simp [utf8DecodeOne, h1, h2, ha, hb, hval]
      omega
    · by_cases h3 : c.toNat < 65536
      · have ha : ¬ (224 + c.toNat / 4096 < 128) := by omega
        have hb : ¬ (224 + c.toNat / 4096 < 224) := by omega
        have hc : 224 + c.toNat / 4096 < 240 := by omega
        have hval : (224 + c.toNat / 4096 - 224) * 4096
            + (128 + c.toNat / 64 % 64 - 128) * 64
            + (128 + c.toNat % 64 - 128) = c.toNat := by omega
        simp [utf8DecodeOne, h1, h2, h3, ha, hb, hc, hval]
        omega
      · have ha : ¬ (240 + c.toNat / 262144 < 128) := by omega
        have hb : ¬ (240 + c.toNat / 262144 < 224) := by omega
        have hc : ¬ (240 + c.toNat / 262144 < 240) := by omega
        have hval : (240 + c.toNat / 262144 - 240) * 262144
            + (128 + c.toNat / 4096 % 64 - 128) * 4096
            + (128 + c.toNat / 64 % 64 - 128) * 64
            + (128 + c.toNat % 64 - 128) = c.toNat := by omega
        simp [utf8DecodeOne, h1, h2, h3, ha, hb, hc, hval]
        omega

theorem utf8Bytes_ne_nil (c : Char) : utf8Bytes c ≠ [] := by
  by_cases h1 : c.toNat < 128 <;> by_cases h2 : c.toNat < 2048 <;>
    by_cases h3 : c.toNat < 65536 <;> simp [utf8Bytes, h1, h2, h3]

theorem utf8EncodeList_inj :
    ∀ l1 l2 : List Char, utf8EncodeList l1 = utf8EncodeList l2 → l1 = l2 := by
  intro l1
  induction l1 with
  | nil =>
    intro l2 h
    cases l2 with
    | nil => rfl
    | cons c cs =>
      exfalso
      simp only [utf8EncodeList] at h
      exact utf8Bytes_ne_nil c (List.append_eq_nil.mp h.symm).1
  | cons c cs ih =>
    intro l2 h
    cases l2 with
    | nil =>
      exfalso
      simp only [utf8EncodeList] at h
      exact utf8Bytes_ne_nil c (List.append_eq_nil.mp h).1
    | cons d ds =>
      simp only [utf8EncodeList] at h
      have h1 := utf8DecodeOne_encode c (utf8EncodeList cs)
      have h2 := utf8DecodeOne_encode d (utf8EncodeList ds)
      rw [h] at h1
      have hx : (c.toNat, utf8EncodeList cs) = (d.toNat, utf8EncodeList ds) :=
        Option.some.inj (h1.symm.trans h2)
      have hcd : c.toNat = d.toNat := congrArg Prod.fst hx
      have htl : utf8EncodeList cs = utf8EncodeList ds := congrArg Prod.snd hx
      have hch : c = d := Char.eq_of_val_eq (UInt32.ext hcd)
      rw [hch, ih _ htl]

/-- Inverse of `Nat.digitChar` on the range used by `bytes.hex()`. -/
def hexDigitVal (c : Char) : Nat :=
  if c.toNat < 58 then c.toNat - 48 else c.toNat - 87

theorem hexDigitVal_digitChar (k : Nat) (h : k < 16) :
    hexDigitVal (Nat.digitChar k) = k := by
  interval_cases k <;> decide

theorem digitChar_ne_colon (k : Nat) (h : k < 16) : Nat.digitChar k ≠ ':' := by
  interval_cases k <;> decide

theorem utf8Bytes_lt256 (c : Char) : ∀ b ∈ utf8Bytes c, b < 256 := by
  have hv := char_toNat_lt c
  intro b hb
  unfold utf8Bytes at hb
  by_cases h1 : c.toNat < 128
  · simp [h1] at hb
    omega
  · by_cases h2 : c.toNat < 2048
    · simp [h1, h2] at hb
      rcases hb with rfl | rfl <;> omega
    · by_cases h3 : c.toNat < 65536
      · simp [h1, h2, h3] at hb
        rcases hb with rfl | rfl | rfl <;> omega
      · simp [h1, h2, h3] at hb
        rcases hb with rfl | rfl | rfl | rfl <;> omega

theorem utf8EncodeList_lt256 (l : List Char) : ∀ b ∈ utf8EncodeList l, b < 256 := by
  induction l with
  | nil => intro b hb; simp [utf8EncodeList] at hb
  | cons c cs ih =>
    intro b hb
    simp only [utf8EncodeList, List.mem_append] at hb
    rcases hb with hb | hb
    · exact utf8Bytes_lt256 c b hb
    · exact ih b hb

theorem hexOfBytes_inj :
    ∀ l1 l2 : List Nat, (∀ b ∈ l1, b < 256) → (∀ b ∈ l2, b < 256) →
      hexOfBytes l1 = hexOfBytes l2 → l1 = l2 := by
  intro l1
  induction l1 with
  | nil =>
    intro l2 _ _ h
    cases l2 with
    | nil => rfl
    | cons b bs => exact absurd h (by simp [hexOfBytes])
  | cons b bs ih =>
    intro l2 hb1 hb2 h
    cases l2 with
    | nil => exact absurd h (by simp [hexOfBytes])
    | cons d ds =>
      simp only [hexOfBytes, List.cons.injEq] at h
      obtain ⟨hhi, hlo, hrest⟩ := h
      have hblt : b < 256 := hb1 b (by simp)
      have hdlt : d < 256 := hb2 d (by simp)
      have e1 : b / 16 = d / 16 := by
        have := congrArg hexDigitVal hhi
        rwa [hexDigitVal_digitChar _ (by omega), hexDigitVal_digitChar _ (by omega)] at this
      have e2 : b % 16 = d % 16 := by
        have := congrArg hexDigitVal hlo
        rwa [hexDigitVal_digitChar _ (by omega), hexDigitVal_digitChar _ (by omega)] at this
      have : b = d := by omega
      rw [this, ih ds (fun x hx => hb1 x (by simp [hx])) (fun x hx => hb2 x (by simp [hx])) hrest]

theorem hexOfBytes_ne_colon :
    ∀ l : List Nat, (∀ b ∈ l, b < 256) → ∀ ch ∈ hexOfBytes l, ch ≠ ':' := by
  intro l
  induction l with
  | nil => intro _ ch hch; simp [hexOfBytes] at hch
  | cons b bs ih =>
    intro hlt ch hch
    have hblt : b < 256 := hlt b (by simp)
    simp only [hexOfBytes, List.mem_cons] at hch
    rcases hch with rfl | rfl | hch
    · exact digitChar_ne_colon _ (by omega)
    · exact digitChar_ne_colon _ (by omega)
    · exact ih (fun x hx => hlt x (by simp [hx])) ch hch

theorem string_data_inj {s t : String} (h : s.data = t.data) : s = t := by
  cases s
  cases t
  exact congrArg String.mk h

theorem hexEncode_inj (s1 s2 : String)
    (h : (hexEncode s1).data = (hexEncode s2).data) : s1 = s2 := by
  simp only [hexEncode] at h
  exact string_data_inj
    (utf8EncodeList_inj _ _
      (hexOfBytes_inj _ _ (utf8EncodeList_lt256 _) (utf8EncodeList_lt256 _) h))

theorem hexEncode_data_ne_colon (s : String) :
    ∀ ch ∈ (hexEncode s).data, ch ≠ ':' :=
  hexOfBytes_ne_colon _ (utf8EncodeList_lt256 _)

/-- Splitting a concatenation at the first colon is unambiguous when the
left part is colon-free. -/
theorem append_colon_split :
    ∀ (a1 : List Char) (b1 : List Char) (a2 : List Char) (b2 : List Char),
      (∀ ch ∈ a1, ch ≠ ':') → (∀ ch ∈ a2, ch ≠ ':') →
      a1 ++ ':' :: b1 = a2 ++ ':' :: b2 → a1 = a2 ∧ b1 = b2 := by
  intro a1
  induction a1 with
  | nil =>
    intro b1 a2 b2 _ ha2 h
    cases a2 with
    | nil => simpa using h
    | cons c cs =>
      exfalso
      simp only [List.nil_append, List.cons_append, List.cons.injEq] at h
      exact ha2 c (by simp) h.1.symm
  | cons c cs ih =>
    intro b1 a2 b2 ha1 ha2 h
    cases a2 with
    | nil =>
      exfalso
      simp only [List.nil_append, List.cons_append, List.cons.injEq] at h
      exact ha1 c (by simp) h.1
    | cons d ds =>
      simp only [List.cons_append, List.cons.injEq] at h
      obtain ⟨rfl, htl⟩ := h
      obtain ⟨h1, h2⟩ := ih b1 ds b2 (fun x hx => ha1 x (by simp [hx]))
        (fun x hx => ha2 x (by simp [hx])) htl
      exact ⟨by rw [h1], h2⟩

theorem slackUnfurlEventKey_data (c t : String) (th : Option String) :
    (slackUnfurlEventKey c t th).data
      = "unfurl:slack:".data ++ (c.data ++ ':' :: ((hexEncode t).data
          ++ (match th with
              | some s => if s = "" then [] else ':' :: s.data
              | none => []))) := by
  cases th with
  | none => simp [slackUnfurlEventKey, String.data_append]
  | some s =>
    by_cases hs : s = "" <;> simp [slackUnfurlEventKey, String.data_append, hs]

/-- C6 (amended): the serialized debounce key omits the domain entirely, and
is injective over `(channel, thread-or-absent, token)` provided the channel
id contains no colon and a present thread id is non-empty; the token itself
is hex-encoded and therefore byte-safe. -/
theorem claim6_amended_key_injective
    (c1 c2 t1 t2 : String) (th1 th2 : Option String)
    (hc1 : ∀ ch ∈ c1.data, ch ≠ ':') (hc2 : ∀ ch ∈ c2.data, ch ≠ ':')
    (hth1 : th1 ≠ some "") (hth2 : th2 ≠ some "")
    (h : slackUnfurlEventKey c1 t1 th1 = slackUnfurlEventKey c2 t2 th2) :
    c1 = c2 ∧ t1 = t2 ∧ th1 = th2 := by
  have hd := congrArg String.data h
  rw [slackUnfurlEventKey_data, slackUnfurlEventKey_data] at hd
  have hd2 := List.append_cancel_left hd
  obtain ⟨hch, hrest⟩ := append_colon_split _ _ _ _ hc1 hc2 hd2
  have hcc : c1 = c2 := string_data_inj hch
  cases th1 with
  | none =>
    cases th2 with
    | none =>
      simp only [List.append_nil] at hrest
      exact ⟨hcc, hexEncode_inj _ _ hrest, rfl⟩
    | some s2 =>
      exfalso
      have hs2 : ¬ (s2 = "") := fun hh => hth2 (by rw [hh])
      simp only [hs2, if_neg, List.append_nil] at hrest
      have hmem : (':' : Char) ∈ (hexEncode t1).data := by
        rw [hrest]
        exact List.mem_append_right _ (List.mem_cons_self _ _)
      exact hexEncode_data_ne_colon t1 ':' hmem rfl
  | some s1 =>
    have hs1 : ¬ (s1 = "") := fun hh => hth1 (by rw [hh])
    cases th2 with
    | none =>
      exfalso
      simp only [hs1, if_neg, List.append_nil] at hrest
      have hmem : (':' : Char) ∈ (hexEncode t2).data := by
        rw [← hrest]
        exact List.mem_append_right _ (List.mem_cons_self _ _)
      exact hexEncode_data_ne_colon t2 ':' hmem rfl
    | some s2 =>
      have hs2 : ¬ (s2 = "") := fun hh => hth2 (by rw [hh])
      simp only [hs1, hs2, if_neg] at hrest
      obtain ⟨hx, hs⟩ := append_colon_split _ _ _ _
        (hexEncode_data_ne_colon t1) (hexEncode_data_ne_colon t2) hrest
      exact ⟨hcc, hexEncode_inj _ _ hx, by rw [string_data_inj hs]⟩

/-- C6 counterexample: the key encoding as implemented is not injective over
scopes.  The scope (channel `"c"`, thread `"61"`, token `"a"`) and the scope
(channel `"c:61"`, no thread, token `"a"`) are distinct yet serialize to the
same store key, because the channel segment is embedded unescaped (and `"a"`
hex-encodes to `"61"`). -/
theorem claim6_counterexample :
    slackUnfurlEventKey "c" "a" (some "61") = slackUnfurlEventKey "c:61" "a" none
      ∧ ¬(("c" : String) = "c:61" ∧ (some "61" : Option String) = none) := by
  decide

/-- Witness for `claim6_amended_key_injective` at concrete inputs. -/
theorem claim6_amended_witness :
    ("C" : String) = "C" ∧ ("DM-1" : String) = "DM-1"
      ∧ (none : Option String) = none :=
  claim6_amended_key_injective "C" "C" "DM-1" "DM-1" none none
    (by decide) (by decide) (by decide) (by decide) rfl

/-! ### `storage/slackmessage.py`: `_format_and_truncate_at_end`

`string.strip()` then `.replace("&", "&amp;").replace("<", "&lt;")
.replace(">", "&gt;")`; if the result exceeds `max_length`, truncate at the
last newline before `max_length - len(" [...]")` (Python slice semantics,
including the negative-index wrap-around when `max_length < 6`) and append
`" [...]"`.
-/

/-- Python `str.strip()` whitespace test (the ASCII whitespace characters;
the Unicode space characters Python also strips do not occur here). -/
def isPySpace (c : Char) : Bool :=
  c.toNat = 32 || c.toNat = 9 || c.toNat = 10 || c.toNat = 13
    || c.toNat = 11 || c.toNat = 12

/-- `str.strip()`: drop leading and trailing whitespace. -/
def stripEnds (l : List Char) : List Char :=
  ((l.dropWhile isPySpace).reverse.dropWhile isPySpace).reverse

/-- `str.replace(pat, rep)` for a single-character pattern: each occurrence
is replaced left to right and the replacement is not rescanned. -/
def replaceChar (pat : Char) (rep : List Char) : List Char → List Char
  | [] => []
  | c :: cs => (if c = pat then rep else [c]) ++ replaceChar pat rep cs

/-- The chained `.replace("&", "&amp;").replace("<", "&lt;")
.replace(">", "&gt;")` escaping (`&` first). -/
def escapeSlackText (l : List Char) : List Char :=
  replaceChar '>' "&gt;".data
    (replaceChar '<' "&lt;".data (replaceChar '&' "&amp;".data l))

/-- Python's normalization of a slice/`rfind` end index: a negative index
counts from the end of the string, and the result is clamped to `[0, n]`. -/
def pyEnd (n : Nat) (e : Int) : Nat :=
  (max 0 (min (n : Int) (if e < 0 then (n : Int) + e else e))).toNat

/-- Index of the last newline in a character list, if any. -/
def lastIdxNl : List Char → Option Nat
  | [] => none
  | c :: cs =>
    match lastIdxNl cs with
    | some i => some (i + 1)
    | none => if c = '\n' then some 0 else none

/-- `string.rfind("\n", 0, e)` with Python index normalization (`none`
models the `-1` "not found" result). -/
def pyRfindNl (l : List Char) (e : Int) : Option Nat :=
  lastIdxNl (l.take (pyEnd l.length e))

/-- `_format_and_truncate_at_end` from `storage/slackmessage.py`.  The
suffix `" [...]"` has length 6. -/
def formatAndTruncateAtEnd (s : String) (maxLength : Nat) : String :=
  let str := escapeSlackText (stripEnds s.data)
  if str.length ≤ maxLength then String.mk str
  else
    let cutoff : Int := (maxLength : Int) - 6
    match pyRfindNl str cutoff with
    | none => String.mk (str.take (pyEnd str.length cutoff) ++ " [...]".data)
    | some i => String.mk (str.take i ++ " [...]".data)

theorem lastIdxNl_eq_none :
    ∀ l : List Char, lastIdxNl l = none → ∀ j, l.get? j ≠ some '\n' := by
  intro l
  induction l with
  | nil => intro _ j; simp
  | cons c cs ih =>
    intro h j
    unfold lastIdxNl at h
    cases hcs : lastIdxNl cs with
    | some i => rw [hcs] at h; exact absurd h (by simp)
    | none =>
      rw [hcs] at h
      have hc : ¬ (c = '\n') := by
        by_contra hc
        rw [if_pos hc] at h
        exact absurd h (by simp)
      cases j with
      | zero => simpa using fun hh => hc hh
      | succ j => simpa using ih hcs j

theorem lastIdxNl_eq_some :
    ∀ l : List Char, ∀ i, lastIdxNl l = some i →
      l.get? i = some '\n' ∧ ∀ j, l.get? j = some '\n' → j ≤ i := by
  intro l
  induction l with
  | nil => intro i h; exact absurd h (by simp [lastIdxNl])
  | cons c cs ih =>
    intro i h
    unfold lastIdxNl at h
    cases hcs : lastIdxNl cs with
    | some i' =>
      rw [hcs] at h
      have hi : i = i' + 1 := by simpa using h.symm
      subst hi
      obtain ⟨hget, hub⟩ := ih i' hcs
      constructor
      · simpa using hget
      · intro j hj
        cases j with
        | zero => omega
        | succ j => simpa using Nat.succ_le_succ (hub j (by simpa using hj))
    | none =>
      rw [hcs] at h
      have hc : c = '\n' := by
        by_contra hc
        rw [if_neg hc] at h
        exact absurd h (by simp)
      have hi : i = 0 := by
        rw [if_pos hc] at h
        simpa using h.symm
      subst hi
      subst hc
      refine ⟨by simp, ?_⟩
      intro j hj
      cases j with
      | zero => omega
      | succ j => exact absurd (by simpa using hj) (lastIdxNl_eq_none cs hcs j)

theorem pyEnd_of_nonneg (n L : Nat) (h6 : 6 ≤ L) :
    pyEnd n ((L : Int) - 6) = min (L - 6) n := by
  unfold pyEnd
  rw [if_neg (by omega)]
  omega

theorem get?_lt_of_eq_some {l : List Char} {j : Nat} {c : Char}
    (h : l.get? j = some c) : j < l.length := by
  by_contra hc
  rw [List.get?_eq_none.mpr (by omega)] at h
  exact absurd h (by simp)

/-- C8 counterexample: with `max_length = 0` the claimed bound
`len(result) <= max_length` fails, because Python interprets the negative
slice index `max_length - 6` as counting from the end of the string. -/
theorem claim8_counterexample :
    ¬ ((formatAndTruncateAtEnd "aaaaaaa\nbbbbbbbb" 0).length ≤ 0) := by
  decide

/-- C8 (amended): for `max_length ≥ len(" [...]") = 6`, the function returns
the stripped-and-escaped string unaltered when it fits, and otherwise
returns a prefix of it cut at the last newline before `max_length - 6`
(hard-cut at `max_length - 6` when no such newline exists) followed by the
literal suffix `" [...]"`, with total length at most `max_length`. -/
theorem claim8_amended_truncation (s : String) (L : Nat) (hL : 6 ≤ L) :
    ((escapeSlackText (stripEnds s.data)).length ≤ L →
        formatAndTruncateAtEnd s L = String.mk (escapeSlackText (stripEnds s.data)))
      ∧ (L < (escapeSlackText (stripEnds s.data)).length →
          (formatAndTruncateAtEnd s L).length ≤ L
          ∧ ∃ k, k ≤ L - 6
              ∧ (formatAndTruncateAtEnd s L).data
                  = (escapeSlackText (stripEnds s.data)).take k ++ " [...]".data
              ∧ ((∀ j, j < L - 6 →
                    (escapeSlackText (stripEnds s.data)).get? j ≠ some '\n') →
                  k = min (L - 6) (escapeSlackText (stripEnds s.data)).length)
              ∧ (∀ j, j < L - 6 →
                  (escapeSlackText (stripEnds s.data)).get? j = some '\n' → j ≤ k)
              ∧ ((∃ j, j < L - 6
                    ∧ (escapeSlackText (stripEnds s.data)).get? j = some '\n') →
                  (escapeSlackText (stripEnds s.data)).get? k = some '\n')) := by
  set t := escapeSlackText (stripEnds s.data) with ht
  constructor
  · intro h
    simp only [formatAndTruncateAtEnd, ← ht]
    rw [if_pos h]
  · intro h
    have hnot : ¬ (t.length ≤ L) := by omega
    have hpe : pyEnd t.length ((L : Int) - 6) = min (L - 6) t.length :=
      pyEnd_of_nonneg _ _ hL
    simp only [formatAndTruncateAtEnd, ← ht]
    rw [if_neg hnot]
    cases hfind : pyRfindNl t ((L : Int) - 6) with
    | none =>
      unfold pyRfindNl at hfind
      rw [hpe] at hfind
      have hnone := lastIdxNl_eq_none _ hfind
      have hmle : min (L - 6) t.length ≤ t.length := by omega
      constructor
      · show (t.take (pyEnd t.length ((L : Int) - 6)) ++ " [...]".data).length ≤ L
        rw [hpe, List.length_append, List.length_take]
        have : " [...]".data.length = 6 := by decide
        omega
      · refine ⟨min (L - 6) t.length, by omega, ?_, fun _ => rfl, ?_, ?_⟩
        · show t.take (pyEnd t.length ((L : Int) - 6)) ++ " [...]".data
            = t.take (min (L - 6) t.length) ++ " [...]".data
          rw [hpe]
        · intro j hj hnl
          have hjlen : j < t.length := get?_lt_of_eq_some hnl
          have hjm : j < min (L - 6) t.length := by omega
          exact absurd (by rw [List.get?_take hjm]; exact hnl) (hnone j)
        · intro hex
          obtain ⟨j, hj, hnl⟩ := hex
          have hjlen : j < t.length := get?_lt_of_eq_some hnl
          have hjm : j < min (L - 6) t.length := by omega
          exact absurd (by rw [List.get?_take hjm]; exact hnl) (hnone j)
    | some i =>
      unfold pyRfindNl at hfind
      rw [hpe] at hfind
      obtain ⟨hgi, hub⟩ := lastIdxNl_eq_some _ _ hfind
      have him : i < min (L - 6) t.length := by
        have := get?_lt_of_eq_some hgi
        rw [List.length_take] at this
        omega
      have hti : t.get? i = some '\n' := by
        rw [← List.get?_take him]
        exact hgi
      constructor
      · show (t.take i ++ " [...]".data).length ≤ L
        rw [List.length_append, List.length_take]
        have : " [...]".data.length = 6 := by decide
        omega
      · refine ⟨i, by omega, rfl, ?_, ?_, fun _ => hti⟩
        · intro hno
          exact absurd hti (hno i (by omega))
        · intro j hj hnl
          have hjlen : j < t.length := get?_lt_of_eq_some hnl
          have hjm : j < min (L - 6) t.length := by omega
          exact hub j (by rw [List.get?_take hjm]; exact hnl)

/-- Witness for `claim8_amended_truncation` at a concrete input. -/
theorem claim8_amended_witness :
    6 ≤ 10 ∧ formatAndTruncateAtEnd "hello" 10
      = String.mk (escapeSlackText (stripEnds "hello".data)) :=
  ⟨by decide, (claim8_amended_truncation "hello" 10 (by decide)).1 (by decide)⟩

/-! ### `services/domainbase.py`: store operations and `_send_unfurl`

Timestamps are integer seconds.  The Redis store
(`SlackUnfurlEventStore`) is an association list from serialized keys to
write times, newest first (a Redis `SET` overwrite corresponds to
prepending); a record written at `t0` with lifetime `W`
(`config.slack_debounce_time`) is visible at `now` iff `now - t0 < W`.
The `chat.postMessage` response is a parameter.  Note that
`_is_trigger_message_stale` reads `config.slack_trigger_message_ttl`, a
field this snapshot's `Config` does not define, so every call to it
raises `AttributeError`; the base `process_slack` is therefore embedded
by `processSlackRunGo` later in this file, which carries that error.
-/

/-- The fields of `SquarebotSlackMessageValue` that the pipeline reads.
`ts` is `float(message.ts)` as integer seconds; `eventBotId` abstracts
`json.loads(message.slack_event)["event"]`'s `bot_id` entry (`none` = key
absent, `some none` = present but null, `some (some b)` = a bot id). -/
structure SlackMessage where
  text : String
  channel : String
  threadTs : Option String
  ts : Int
  eventBotId : Option (Option String)
deriving DecidableEq

/-- The fields of the reply `SlackBlockKitMessage` that `_send_unfurl`
reads (`channel : str | None`, `thread_ts : str | None`). -/
structure SlackReply where
  channel : Option String
  threadTs : Option String
deriving DecidableEq

/-- One `chat.postMessage` attempt observed at the HTTP boundary. -/
structure Send where
  channel : Option String
  threadTs : Option String
  token : String
deriving DecidableEq

/-- Most-recent-first association lookup, i.e. a Redis `GET`. -/
def lookupStore : List (String × Int) → String → Option Int
  | [], _ => none
  | (k, t) :: rest, key => if k = key then some t else lookupStore rest key

/-- `SlackUnfurlEventStore.has_event` at time `now` with debounce window
`W`: the key is stored and its TTL has not expired. -/
def hasEvent (W : Int) (store : List (String × Int)) (now : Int)
    (channel : String) (threadTs : Option String) (token : String) : Bool :=
  match lookupStore store (slackUnfurlEventKey channel token threadTs) with
  | some t0 => decide (now - t0 < W)
  | none => false

/-- `SlackUnfurlEventStore.add_event` at time `now` (stored with lifetime
`config.slack_debounce_time`). -/
def addEvent (store : List (String × Int)) (now : Int) (channel : String)
    (threadTs : Option String) (token : String) : List (String × Int) :=
  (slackUnfurlEventKey channel token threadTs, now) :: store

/-- The staleness criterion from the `return` expression of
`DomainUnfurler._is_trigger_message_stale`: the trigger's age exceeds the
configured TTL.  In this snapshot that comparison is never reached — the
read of `config.slack_trigger_message_ttl` raises `AttributeError`
because `Config` defines no such field (see `processSlackRunGo`) — so
this function states only the criterion of the return line, as a function
of the intended TTL value. -/
def isTriggerMessageStale (ttl : Int) (now : Int) (m : SlackMessage) : Bool :=
  decide (now - m.ts > ttl)

/-- `DomainUnfurler._send_unfurl`: post the reply to `chat.postMessage`
(the send attempt), log on `ok`/failure (the response value affects only
the log line), then `add_event` iff the reply message's channel is truthy.
Returns the updated store, the send attempts, and the log lines. -/
def sendUnfurl (store : List (String × Int)) (now : Int) (reply : SlackReply)
    (token : String) (okResp : Bool) :
    List (String × Int) × List Send × List String :=
  let attempt : Send := ⟨reply.channel, reply.threadTs, token⟩
  let logs := if okResp then ["Sent unfurl"] else ["Failed to send Slack message"]
  let store' :=
    match reply.channel with
    | some c => if c ≠ "" then addEvent store now c reply.threadTs token else store
    | none => store
  (store', [attempt], logs)

/-- Concrete single-token extractor used by the evaluation theorems. -/
def wExtract : SlackMessage → List String := fun _ => ["DM-1"]

/-- A trigger message in channel `C123` sent at time 0. -/
def wMsg : SlackMessage := ⟨"DM-1 hello", "C123", none, 0, none⟩

/-- C5 counterexample: when the reply message's channel is `None` (falsy),
`_send_unfurl` performs the `chat.postMessage` attempt but writes no
debounce record afterwards, contradicting the claim's "whenever a send
attempt is made ... a debounce record for that scope is written". -/
theorem claim5_counterexample :
    (sendUnfurl [] 0 ⟨none, none⟩ "DM-1" false).2.1 ≠ []
      ∧ (sendUnfurl [] 0 ⟨none, none⟩ "DM-1" false).1 = [] := by
  decide

/-- C5 (amended): whenever the reply message's channel is truthy, the send
attempt is followed by a debounce record regardless of whether the
platform reported `ok:true` or `ok:false`, and an `ok:false` response only
changes the log line, never the store or the attempts (and raises
nothing: the embedding is a total function). -/
theorem claim5_amended_record_after_send
    (store : List (String × Int)) (now : Int) (reply : SlackReply)
    (token : String) (c : String)
    (hch : reply.channel = some c) (hc : c ≠ "") (ok1 ok2 : Bool) :
    (sendUnfurl store now reply token ok1).1
        = (slackUnfurlEventKey c token reply.threadTs, now) :: store
    ∧ (sendUnfurl store now reply token ok1).2.1
        = [⟨reply.channel, reply.threadTs, token⟩]
    ∧ (sendUnfurl store now reply token ok1).1
        = (sendUnfurl store now reply token ok2).1
    ∧ (sendUnfurl store now reply token ok1).2.1
        = (sendUnfurl store now reply token ok2).2.1 := by
  refine ⟨?_, rfl, ?_, rfl⟩ <;> simp [sendUnfurl, hch, hc, addEvent]

/-- Witness for `claim5_amended_record_after_send` at concrete inputs,
with an `ok:false` first response. -/
theorem claim5_amended_witness :
    (sendUnfurl [] 0 ⟨some "C1", none⟩ "DM-1" false).1
        = [(slackUnfurlEventKey "C1" "DM-1" none, 0)]
    ∧ (sendUnfurl [] 0 ⟨some "C1", none⟩ "DM-1" false).2.1
        = [⟨some "C1", none, "DM-1"⟩]
    ∧ (sendUnfurl [] 0 ⟨some "C1", none⟩ "DM-1" false).1
        = (sendUnfurl [] 0 ⟨some "C1", none⟩ "DM-1" true).1
    ∧ (sendUnfurl [] 0 ⟨some "C1", none⟩ "DM-1" false).2.1
        = (sendUnfurl [] 0 ⟨some "C1", none⟩ "DM-1" true).2.1 :=
  claim5_amended_record_after_send [] 0 ⟨some "C1", none⟩ "DM-1" "C1"
    rfl (by decide) false true

/-- A trigger message with an empty channel field. -/
def wMsgE : SlackMessage := ⟨"DM-1", "", none, 0, none⟩

/-! ### `services/jiraunfurler.py`: `JiraUnfurler.extract_issues`

Five passes over the message text, in source order: remove fenced
code blocks (non-greedy, DOTALL), remove inline code spans (non-greedy,
no newline), strip the configured Jira host's `/browse/` prefix, rewrite
`tickets/DM-` to `DM-`, remove remaining `https?://\S+` URLs; then match
`\b((?:P1|P2|...)-\d+)`, deduplicate with set semantics, and sort.
Character classes are the ASCII ones (Python's `re` is Unicode-aware, but
the texts considered are ASCII).
-/

/-- The backtick character (code point 96). -/
def backtickChar : Char := Char.ofNat 96

/-- Whether the text starts with three consecutive backticks. -/
def startsWithTriple (l : List Char) : Bool :=
  match l with
  | a :: b :: c :: _ => a == backtickChar && b == backtickChar && c == backtickChar
  | _ => false

/-- Find the first three consecutive backticks; return the suffix after
them. -/
def findTripleEnd : List Char → Option (List Char)
  | [] => none
  | c :: cs =>
    if startsWithTriple (c :: cs) then some (cs.drop 2) else findTripleEnd cs

theorem findTripleEnd_length :
    ∀ l r, findTripleEnd l = some r → r.length + 3 ≤ l.length := by
  intro l
  induction l with
  | nil => intro r h; exact absurd h (by simp [findTripleEnd])
  | cons c cs ih =>
    intro r h
    unfold findTripleEnd at h
    by_cases hs : startsWithTriple (c :: cs)
    · rw [if_pos hs] at h
      have h2 : 2 ≤ cs.length := by
        cases cs with
        | nil => simp [startsWithTriple] at hs
        | cons b cs' =>
          cases cs' with
          | nil => simp [startsWithTriple] at hs
          | cons d cs'' => simp
      have hr : r = cs.drop 2 := by simpa using h.symm
      rw [hr, List.length_drop]
      simp
      omega
    · rw [if_neg hs] at h
      have := ih r h
      simp
      omega

/-- Recursion on a fuel bounded below by the text length (each step
consumes at least one character, cf. `findTripleEnd_length`), so that the
function reduces structurally. -/
def stripFencedGo : Nat → List Char → List Char
  | 0, l => l
  | _ + 1, [] => []
  | fuel + 1, c :: cs =>
    if startsWithTriple (c :: cs) then
      match findTripleEnd (cs.drop 2) with
      | some r => stripFencedGo fuel r
      | none => c :: cs
    else c :: stripFencedGo fuel cs

/-- `re.sub(r"```.*?```", "", text, flags=re.DOTALL)`: at the leftmost
three-backtick opener, drop through the earliest closing three backticks
and continue; if no closer exists, no match can start anywhere later
either, so the rest is kept. -/
def stripFenced (l : List Char) : List Char := stripFencedGo l.length l

/-- Find a closing single backtick before any newline; return the suffix
after it. -/
def findInlineEnd : List Char → Option (List Char)
  | [] => none
  | c :: cs =>
    if c == backtickChar then some cs
    else if c == '\n' then none
    else findInlineEnd cs

theorem findInlineEnd_length :
    ∀ l r, findInlineEnd l = some r → r.length < l.length := by
  intro l
  induction l with
  | nil => intro r h; exact absurd h (by simp [findInlineEnd])
  | cons c cs ih =>
    intro r h
    unfold findInlineEnd at h
    by_cases h1 : c == backtickChar
    · rw [if_pos h1] at h
      have hr : r = cs := by simpa using h.symm
      simp [hr]
    · rw [if_neg h1] at h
      by_cases h2 : c == '\n'
      · rw [if_pos h2] at h
        exact absurd h (by simp)
      · rw [if_neg h2] at h
        have := ih r h
        simp
        omega

/-- Fuel-bounded recursion (cf. `findInlineEnd_length`). -/
def stripInlineGo : Nat → List Char → List Char
  | 0, l => l
  | _ + 1, [] => []
  | fuel + 1, c :: cs =>
    if c == backtickChar then
      match findInlineEnd cs with
      | some r => stripInlineGo fuel r
      | none => c :: stripInlineGo fuel cs
    else c :: stripInlineGo fuel cs

/-- `re.sub(r"`.*?`", "", text)`: `.` does not match a newline, so an
opening backtick matches only up to the first backtick on the same line;
otherwise the backtick is kept and scanning continues. -/
def stripInline (l : List Char) : List Char := stripInlineGo l.length l

/-- Match a pattern at the head of the text, where `'.'` in the pattern
matches any character: the Jira host URL is interpolated into its regex
unescaped, so its dots are wildcards (the hosts used contain no other
regex metacharacters).  Returns the suffix after the match. -/
def matchPat : List Char → List Char → Option (List Char)
  | [], l => some l
  | _ :: _, [] => none
  | p :: ps, c :: cs => if p == '.' || p == c then matchPat ps cs else none

theorem matchPat_length :
    ∀ ps l r, matchPat ps l = some r → r.length + ps.length = l.length := by
  intro ps
  induction ps with
  | nil =>
    intro l r h
    have : r = l := by simpa [matchPat] using h.symm
    simp [this]
  | cons p ps' ih =>
    intro l r h
    cases l with
    | nil => exact absurd h (by simp [matchPat])
    | cons c cs =>
      unfold matchPat at h
      by_cases hc : (p == '.' || p == c) = true
      · rw [if_pos hc] at h
        have := ih cs r h
        simp
        omega
      · rw [if_neg hc] at h
        exact absurd h (by simp)

/-- Fuel-bounded recursion (cf. `matchPat_length`). -/
def subPatternGo (pat rep : List Char) : Nat → List Char → List Char
  | 0, l => l
  | _ + 1, [] => []
  | fuel + 1, c :: cs =>
    if pat.isEmpty then c :: cs
    else
      match matchPat pat (c :: cs) with
      | some r => rep ++ subPatternGo pat rep fuel r
      | none => c :: subPatternGo pat rep fuel cs

/-- `re.sub(pat, rep, text)` for a fixed-width pattern: leftmost
non-overlapping occurrences are replaced and the replacement text is not
rescanned.  (The patterns used here are never empty.) -/
def subPattern (pat rep : List Char) (l : List Char) : List Char :=
  subPatternGo pat rep l.length l

/-- Python's `\s` character class (the ASCII whitespace characters). -/
def isRegexSpace (c : Char) : Bool :=
  c.toNat = 32 || c.toNat = 9 || c.toNat = 10 || c.toNat = 13
    || c.toNat = 12 || c.toNat = 11

/-- Match `://` followed by `\S+` (greedy) at the head; returns the suffix
after the match. -/
def matchUrlTail (l : List Char) : Option (List Char) :=
  match matchPat "://".data l with
  | some r =>
    let tk := r.takeWhile (fun c => !isRegexSpace c)
    if tk.isEmpty then none else some (r.drop tk.length)
  | none => none

/-- Match `https?://\S+` at the head of the text (the optional `s` is
tried greedily, with backtracking). -/
def matchUrl (l : List Char) : Option (List Char) :=
  match matchPat "http".data l with
  | some r1 =>
    match r1 with
    | 's' :: r2 =>
      match matchUrlTail r2 with
      | some r => some r
      | none => matchUrlTail r1
    | _ => matchUrlTail r1
  | none => none

theorem matchUrlTail_length :
    ∀ l r, matchUrlTail l = some r → r.length < l.length := by
  intro l r h
  unfold matchUrlTail at h
  split at h
  · next r3 hm =>
      have hlen := matchPat_length _ _ _ hm
      dsimp only at h
      split at h
      · exact absurd h (by simp)
      · have hr : r = r3.drop (r3.takeWhile (fun c => !isRegexSpace c)).length := by
          simpa using h.symm
        rw [hr, List.length_drop]
        simp at hlen
        omega
  · exact absurd h (by simp)

theorem matchUrl_length :
    ∀ l r, matchUrl l = some r → r.length < l.length := by
  intro l r h
  unfold matchUrl at h
  split at h
  · next r1 hm =>
      have hlen := matchPat_length _ _ _ hm
      split at h
      · next r2 =>
          split at h
          · next r' ht =>
              have hr : r = r' := by simpa using h.symm
              have := matchUrlTail_length _ _ ht
              subst hr
              simp at hlen
              omega
          · next ht =>
              have := matchUrlTail_length _ _ h
              simp at hlen
              simp only [List.length_cons] at this
              omega
      · next =>
          have := matchUrlTail_length _ _ h
          simp at hlen
          omega
  · exact absurd h (by simp)

/-- Fuel-bounded recursion (cf. `matchUrl_length`). -/
def stripUrlsGo : Nat → List Char → List Char
  | 0, l => l
  | _ + 1, [] => []
  | fuel + 1, c :: cs =>
    match matchUrl (c :: cs) with
    | some r => stripUrlsGo fuel r
    | none => c :: stripUrlsGo fuel cs

/-- `re.sub(r"https?://\S+", "", text)`. -/
def stripUrls (l : List Char) : List Char := stripUrlsGo l.length l

/-- Python's `\w` character class (ASCII letters, digits, underscore). -/
def isWordChar (c : Char) : Bool := c.isAlphanum || c == '_'

/-- Literal prefix match (project names contain no regex
metacharacters); returns the suffix after the match. -/
def matchLit : List Char → List Char → Option (List Char)
  | [], l => some l
  | _ :: _, [] => none
  | p :: ps, c :: cs => if p == c then matchLit ps cs else none

theorem matchLit_length :
    ∀ ps l r, matchLit ps l = some r → r.length + ps.length = l.length := by
  intro ps
  induction ps with
  | nil =>
    intro l r h
    have : r = l := by simpa [matchLit] using h.symm
    simp [this]
  | cons p ps' ih =>
    intro l r h
    cases l with
    | nil => exact absurd h (by simp [matchLit])
    | cons c cs =>
      unfold matchLit at h
      by_cases hc : (p == c) = true
      · rw [if_pos hc] at h
        have := ih cs r h
        simp
        omega
      · rw [if_neg hc] at h
        exact absurd h (by simp)

/-- Match one alternative `P-\d+` at the head: the project name literally,
a hyphen, then one or more digits (greedy).  Returns the matched key text
and the suffix after it. -/
def matchKeyOne (p : String) (l : List Char) : Option (String × List Char) :=
  match matchLit p.data l with
  | some ('-' :: r2) =>
    let ds := r2.takeWhile Char.isDigit
    if ds.isEmpty then none
    else some (String.mk (p.data ++ '-' :: ds), r2.drop ds.length)
  | some _ => none
  | none => none

theorem matchKeyOne_length :
    ∀ p l tok r, matchKeyOne p l = some (tok, r) → r.length < l.length := by
  intro p l tok r h
  unfold matchKeyOne at h
  split at h
  · next r2 hm =>
      have hlen := matchLit_length _ _ _ hm
      dsimp only at h
      split at h
      · exact absurd h (by simp)
      · have hr : r = r2.drop (r2.takeWhile Char.isDigit).length := by
          have := congrArg Prod.snd (Option.some.inj h)
          simpa using this.symm
        rw [hr, List.length_drop]
        simp at hlen
        omega
  · exact absurd h (by simp)
  · exact absurd h (by simp)

/-- Try the alternation `(?:P1|P2|...)` in order. -/
def tryKey (projects : List String) (l : List Char) : Option (String × List Char) :=
  match projects with
  | [] => none
  | p :: ps =>
    match matchKeyOne p l with
    | some r => some r
    | none => tryKey ps l

theorem tryKey_length :
    ∀ projects l tok r, tryKey projects l = some (tok, r) → r.length < l.length := by
  intro projects
  induction projects with
  | nil => intro l tok r h; exact absurd h (by simp [tryKey])
  | cons p ps ih =>
    intro l tok r h
    unfold tryKey at h
    cases hm : matchKeyOne p l with
    | some q =>
      rw [hm] at h
      have hq : q = (tok, r) := by simpa using h
      rw [hq] at hm
      exact matchKeyOne_length p l tok r hm
    | none =>
      rw [hm] at h
      exact ih l tok r h

/-- `re.findall(r"\b((?:P1|P2|...)-\d+)", text)`: scan left to right,
tracking whether the previous character is a word character (`\b` holds
at a key start iff it is not); matches are non-overlapping and scanning
resumes after each match (whose last character, a digit, is a word
character). -/
def scanKeysGo (projects : List String) : Nat → Bool → List Char → List String
  | 0, _, _ => []
  | _ + 1, _, [] => []
  | fuel + 1, prevW, c :: cs =>
    if !prevW then
      match tryKey projects (c :: cs) with
      | some (tok, rest) => tok :: scanKeysGo projects fuel true rest
      | none => scanKeysGo projects fuel (isWordChar c) cs
    else scanKeysGo projects fuel (isWordChar c) cs

/-- Fuel-bounded wrapper (cf. `tryKey_length`). -/
def scanKeys (projects : List String) (prevW : Bool) (l : List Char) :
    List String :=
  scanKeysGo projects l.length prevW l

/-- Code-point lexicographic comparison, as Python's `sorted` uses on
strings. -/
def charListLe : List Char → List Char → Bool
  | [], _ => true
  | _ :: _, [] => false
  | a :: as, b :: bs =>
    if a.toNat < b.toNat then true
    else if b.toNat < a.toNat then false
    else charListLe as bs

/-- The `sorted()` order on strings. -/
def strLe (a b : String) : Prop := charListLe a.data b.data = true

instance decStrLe : DecidableRel strLe := fun a b =>
  inferInstanceAs (Decidable (charListLe a.data b.data = true))

theorem charListLe_total : ∀ x y, charListLe x y = true ∨ charListLe y x = true := by
  intro x
  induction x with
  | nil => intro y; left; simp [charListLe]
  | cons a as ih =>
    intro y
    cases y with
    | nil => right; simp [charListLe]
    | cons b bs =>
      by_cases h1 : a.toNat < b.toNat
      · left; simp [charListLe, h1]
      · by_cases h2 : b.toNat < a.toNat
        · right; simp [charListLe, h2]
        · rcases ih bs with h | h
          · left; simp [charListLe, h1, h2, h]
          · right
            have h1' : ¬ b.toNat < a.toNat := h2
            have h2' : ¬ a.toNat < b.toNat := h1
            simp [charListLe, h1', h2', h]

theorem charListLe_trans :
    ∀ x y z, charListLe x y = true → charListLe y z = true →
      charListLe x z = true := by
  intro x
  induction x with
  | nil => intro y z _ _; simp [charListLe]
  | cons a as ih =>
    intro y z h1 h2
    cases y with
    | nil => exact absurd h1 (by simp [charListLe])
    | cons b bs =>
      cases z with
      | nil => exact absurd h2 (by simp [charListLe])
      | cons c cs =>
        simp only [charListLe] at h1 h2 ⊢
        by_cases hab : a.toNat < b.toNat
        · by_cases hbc : b.toNat < c.toNat
          · simp [show a.toNat < c.toNat by omega]
          · by_cases hcb : c.toNat < b.toNat
            · rw [if_neg hbc, if_pos hcb] at h2
              exact absurd h2 (by simp)
            · simp [show a.toNat < c.toNat by omega]
        · by_cases hba : b.toNat < a.toNat
          · rw [if_neg hab, if_pos hba] at h1
            exact absurd h1 (by simp)
          · rw [if_neg hab, if_neg hba] at h1
            by_cases hbc : b.toNat < c.toNat
            · simp [show a.toNat < c.toNat by omega]
            · by_cases hcb : c.toNat < b.toNat
              · rw [if_neg hbc, if_pos hcb] at h2
                exact absurd h2 (by simp)
              · rw [if_neg hbc, if_neg hcb] at h2
                have hac : ¬ a.toNat < c.toNat := by omega
                have hca : ¬ c.toNat < a.toNat := by omega
                rw [if_neg hac, if_neg hca]
                exact ih bs cs h1 h2

instance totalStrLe : IsTotal String strLe :=
  ⟨fun a b => charListLe_total a.data b.data⟩

instance transStrLe : IsTrans String strLe :=
  ⟨fun a b c => charListLe_trans a.data b.data c.data⟩

/-- `JiraUnfurler.extract_issues`, parameterized by the configured Jira
root URL (`config.jira_root_url`) and the configured project list
(`config.parsed_jira_projects`).  The final
`sorted(list({str(m) for m in matches}))` is deduplication with set
semantics followed by an ascending sort. -/
def extractIssues (host : String) (projects : List String) (text : String) :
    List String :=
  let t1 := stripFenced text.data
  let t2 := stripInline t1
  let t3 := subPattern (host.data ++ "/browse/".data) [] t2
  let t4 := subPattern "tickets/DM-".data "DM-".data t3
  let t5 := stripUrls t4
  let ms := scanKeys projects false t5
  List.insertionSort strLe ms.dedup

/-- C7: `extract_issues` is a pure function whose result is sorted with no
duplicates for every input, and on the spec's scenarios with projects
{DM, RFC} and canonical host `https://jira.example`: Scenario B keeps the
key inside the canonical browse URL and strips the key inside an
unrelated URL; Scenario C excludes keys inside fenced and inline code
spans. -/
theorem claim7_extraction :
    (∀ (host : String) (projects : List String) (text : String),
        List.Sorted strLe (extractIssues host projects text)
        ∧ (extractIssues host projects text).Nodup)
    ∧ extractIssues "https://jira.example" ["DM", "RFC"]
        "https://jira.example/browse/DM-5678 https://example.com/RFC-1"
        = ["DM-5678"]
    ∧ extractIssues "https://jira.example" ["DM", "RFC"]
        "DM-1234\n```DM-5678```\n\n`RFC-1`"
        = ["DM-1234"] := by
  refine ⟨fun host projects text => ⟨List.sorted_insertionSort strLe _, ?_⟩, ?_, ?_⟩
  · exact (List.perm_insertionSort strLe _).symm.nodup (List.nodup_dedup _)
  · decide
  · decide

/-! ### `services/jiraunfurler.py`: the overriding `JiraUnfurler.process_slack`

`JiraUnfurler` overrides the base pipeline with its own `process_slack`
(no staleness gate) whose token loop begins with
`if await self.is_recently_unfurled(message, issue_key):` — an attribute
that exists on neither `JiraUnfurler` nor `DomainUnfurler` (the base class
defines `_is_recently_unfurled`), so Python raises `AttributeError` on the
first extracted token.  Likewise `unfurl_issue` ends with
`await self.send_unfurl(...)` (the base class defines `_send_unfurl`).
-/

/-- Python exceptions that the embedded Jira pipeline can raise. -/
inductive PyErr where
  | attributeError (name : String)
  | httpStatusError (status : Nat)
deriving DecidableEq

/-- Trace of one `JiraUnfurler.process_slack` run: the Jira fetches
performed (`JiraIssueClient.get_issue` calls), the send attempts, the
resulting store, and the exception that aborted the run, if any. -/
structure JiraRun where
  fetches : List String
  sends : List Send
  store : List (String × Int)
  err : Option PyErr
deriving DecidableEq

/-- The token loop of the overriding `JiraUnfurler.process_slack`.  The
loop body's first statement evaluates `self.is_recently_unfurled`, an
attribute that does not exist, so the first iteration raises
`AttributeError`: no staleness check, no fetch, no send and no store
write happen for any token. -/
def jiraProcessSlackGo : List String → List (String × Int) → JiraRun
  | [], store => ⟨[], [], store, none⟩
  | _ :: _, store =>
    ⟨[], [], store, some (.attributeError "is_recently_unfurled")⟩

/-- `JiraUnfurler.process_slack` (the override used by the composed
pipeline): `extract_issues(message.text)` then the token loop. -/
def jiraProcessSlack (host : String) (projects : List String)
    (m : SlackMessage) (store : List (String × Int)) : JiraRun :=
  jiraProcessSlackGo (extractIssues host projects m.text) store

/-- `JiraUnfurler.unfurl_issue` for one issue key, abstracted over the
Jira fetch outcome: `JiraIssueClient.get` calls `raise_for_status()`, so
an HTTP error propagates — there is no try/except here or in the calling
loop.  On success, `format_slack_message` is pure, and the next statement
evaluates `self.send_unfurl`, an attribute that does not exist, raising
`AttributeError` before any send or debounce write.  Returns the fetches
performed and the exception raised. -/
def unfurlIssue (fetch : String → Except PyErr Unit)
    (issueKey : String) : List String × Option PyErr :=
  match fetch issueKey with
  | .error e => ([issueKey], some e)
  | .ok _ => ([issueKey], some (.attributeError "send_unfurl"))

/-! ### `services/slackunfurler.py`: `SlackUnfurlService.process_message` -/

/-- The shape of a registered domain unfurler's `process_slack` as the
dispatcher sees it: message and store in, store, sends and optional
exception out. -/
abbrev UnfurlerFn :=
  SlackMessage → List (String × Int) →
    List (String × Int) × List Send × Option PyErr

/-- The dispatcher loop `for unfurler in self._domain_unfurlers: await
unfurler.process_slack(message)`.  There is no try/except: an exception
from one unfurler stops the loop and propagates. -/
def runUnfurlers (m : SlackMessage) :
    List UnfurlerFn → List (String × Int) →
      List (String × Int) × List Send × Option PyErr
  | [], store => (store, [], none)
  | u :: rest, store =>
    match u m store with
    | (s', sends, some e) => (s', sends, some e)
    | (s', sends, none) =>
      let r := runUnfurlers m rest s'
      (r.1, sends ++ r.2.1, r.2.2)

/-- `"bot_id" in message_event and message_event["bot_id"] is not None`
over the parsed original Slack event. -/
def botCheck (m : SlackMessage) : Bool :=
  match m.eventBotId with
  | some (some _) => true
  | _ => false

/-- `SlackUnfurlService.process_message`: return immediately for bot
messages, otherwise run the registered unfurlers in order. -/
def processMessage (unfurlers : List UnfurlerFn) (m : SlackMessage)
    (store : List (String × Int)) :
    List (String × Int) × List Send × Option PyErr :=
  if botCheck m then (store, [], none)
  else runUnfurlers m unfurlers store

/-- `JiraUnfurler.process_slack` in the dispatcher's shape. -/
def jiraUnfurlerFn (host : String) (projects : List String) : UnfurlerFn :=
  fun m store =>
    let r := jiraProcessSlack host projects m store
    (r.store, r.sends, r.err)

/-- A stale trigger message: sent at time 0, now far in the past. -/
def c2Msg : SlackMessage := ⟨"DM-1234", "C123", none, 0, none⟩

/-- C2 (code-bug evaluation): the trigger is stale by
`_is_trigger_message_stale`'s criterion, yet the composed pipeline's
`JiraUnfurler.process_slack` override never consults that gate — it
aborts with `AttributeError` on the first extracted token (before any
fetch, send or store write), instead of the claimed clean per-token
skip. -/
theorem claim2_code_bug_eval :
    isTriggerMessageStale 300 1000000 c2Msg = true
    ∧ jiraProcessSlack "https://jira.example" ["DM", "RFC"] c2Msg []
        = ⟨[], [], [], some (.attributeError "is_recently_unfurled")⟩ := by
  decide

/-- A message mentioning two issue keys. -/
def c3Msg : SlackMessage := ⟨"DM-1 DM-2", "C123", none, 0, none⟩

/-- A Jira fetch that fails with an HTTP 404. -/
def c3FetchFail : String → Except PyErr Unit := fun _ => .error (.httpStatusError 404)

/-- C3 (code-bug evaluation): for a two-token message the override
raises `AttributeError` at the first token, so the sibling token is never
processed; and `unfurl_issue` itself propagates an enrichment failure
uncaught (no reply, no debounce write — but also no isolation: the
exception escapes). -/
theorem claim3_code_bug_eval :
    extractIssues "https://jira.example" ["DM", "RFC"] c3Msg.text = ["DM-1", "DM-2"]
    ∧ jiraProcessSlack "https://jira.example" ["DM", "RFC"] c3Msg []
        = ⟨[], [], [], some (.attributeError "is_recently_unfurled")⟩
    ∧ unfurlIssue c3FetchFail "DM-1" = (["DM-1"], some (.httpStatusError 404)) := by
  decide

/-- C9: for a message whose original Slack event carries a non-null
`bot_id`, `process_message` returns before running any unfurler: no
enrichment fetch, no send, no debounce write, whatever unfurlers are
registered. -/
theorem claim9_bot_message_noop (unfurlers : List UnfurlerFn)
    (m : SlackMessage) (store : List (String × Int)) (b : String)
    (h : m.eventBotId = some (some b)) :
    processMessage unfurlers m store = (store, [], none) := by
  simp [processMessage, botCheck, h]

/-- A bot-authored message (`bot_id` present and non-null). -/
def c9Msg : SlackMessage := ⟨"DM-1 hello", "C123", none, 0, some (some "B999")⟩

/-- An unfurler that always succeeds with one send. -/
def okUnfurler : UnfurlerFn :=
  fun _ store => (store, [⟨some "C123", none, "TOK-1"⟩], none)

/-- Witness for `claim9_bot_message_noop` at a concrete bot message. -/
theorem claim9_witness :
    processMessage [jiraUnfurlerFn "https://jira.example" ["DM", "RFC"],
      okUnfurler] c9Msg [] = ([], [], none) :=
  claim9_bot_message_noop _ c9Msg [] "B999" rfl

/-- A non-bot message mentioning one issue key. -/
def c4Msg : SlackMessage := ⟨"DM-1", "C123", none, 0, none⟩

/-- C4 counterexample: with the Jira unfurler registered first, its
exception propagates out of `process_message` (the claim says it never
raises) and the second registered unfurler — which on its own would have
sent — never runs. -/
theorem claim4_counterexample :
    processMessage [jiraUnfurlerFn "https://jira.example" ["DM", "RFC"],
        okUnfurler] c4Msg []
      = ([], [], some (.attributeError "is_recently_unfurled"))
    ∧ okUnfurler c4Msg [] = ([], [⟨some "C123", none, "TOK-1"⟩], none) := by
  decide

theorem runUnfurlers_append_error (m : SlackMessage) (u : UnfurlerFn)
    (vs : List UnfurlerFn) (s2 : List (String × Int)) (sends2 : List Send)
    (e : PyErr) :
    ∀ (us : List UnfurlerFn) (store s1 : List (String × Int)) (sends1 : List Send),
      runUnfurlers m us store = (s1, sends1, none) →
      u m s1 = (s2, sends2, some e) →
      runUnfurlers m (us ++ u :: vs) store = (s2, sends1 ++ sends2, some e) := by
  intro us
  induction us with
  | nil =>
    intro store s1 sends1 h1 h2
    simp only [runUnfurlers, Prod.mk.injEq] at h1
    obtain ⟨rfl, h1b, -⟩ := h1
    subst h1b
    simp [runUnfurlers, h2]
  | cons u0 us' ih =>
    intro store s1 sends1 h1 h2
    unfold runUnfurlers at h1
    cases hu0 : u0 m store with
    | mk t rest2 =>
      cases rest2 with
      | mk sds err0 =>
        rw [hu0] at h1
        cases err0 with
        | some e0 =>
          dsimp only at h1
          simp only [Prod.mk.injEq] at h1
          exact absurd h1.2.2 (by simp)
        | none =>
          dsimp only at h1
          simp only [Prod.mk.injEq] at h1
          obtain ⟨ha, hb, hc⟩ := h1
          have hrun : runUnfurlers m us' t
              = ((runUnfurlers m us' t).1, (runUnfurlers m us' t).2.1, none) := by
            rw [← hc]
          rw [← ha] at h2
          have hrec := ih t (runUnfurlers m us' t).1 (runUnfurlers m us' t).2.1
            hrun h2
          show (match u0 m store with
            | (s', sends, some e) => (s', sends, some e)
            | (s', sends, none) =>
              let r := runUnfurlers m (us' ++ u :: vs) s'
              (r.1, sends ++ r.2.1, r.2.2)) = (s2, sends1 ++ sends2, some e)
          rw [hu0]
          dsimp only
          rw [hrec]
          rw [← hb]
          simp [List.append_assoc]

/-- C4 (amended): `process_message` skips everything for bot messages;
otherwise it runs the registered unfurlers sequentially with no exception
handling, so when the unfurlers before `u` succeed and `u` raises, the
exception propagates to the caller and the unfurlers after `u` never run
(their sends are absent from the outcome). -/
theorem claim4_amended_error_propagation (m : SlackMessage) (u : UnfurlerFn)
    (us vs : List UnfurlerFn) (store s1 s2 : List (String × Int))
    (sends1 sends2 : List Send) (e : PyErr)
    (hbot : botCheck m = false)
    (h1 : runUnfurlers m us store = (s1, sends1, none))
    (h2 : u m s1 = (s2, sends2, some e)) :
    processMessage (us ++ u :: vs) m store = (s2, sends1 ++ sends2, some e) := by
  unfold processMessage
  rw [hbot]
  simp only [Bool.false_eq_true, if_false]
  exact runUnfurlers_append_error m u vs s2 sends2 e us store s1 sends1 h1 h2

/-- Witness for `claim4_amended_error_propagation`: a successful unfurler
followed by the broken Jira unfurler and one more registered after it. -/
theorem claim4_amended_witness :
    processMessage ([okUnfurler]
        ++ jiraUnfurlerFn "https://jira.example" ["DM", "RFC"] :: [okUnfurler])
      c4Msg []
      = ([], [⟨some "C123", none, "TOK-1"⟩] ++ [],
          some (.attributeError "is_recently_unfurled")) :=
  claim4_amended_error_propagation c4Msg
    (jiraUnfurlerFn "https://jira.example" ["DM", "RFC"])
    [okUnfurler] [okUnfurler] [] [] [] [⟨some "C123", none, "TOK-1"⟩] []
    (.attributeError "is_recently_unfurled") rfl (by decide) (by decide)

/-! ### `services/domainbase.py`: the base `process_slack` as shipped

Every iteration of the base token loop begins with
`if self._is_trigger_message_stale(message):`; that method's return
expression reads `config.slack_trigger_message_ttl`, a field this
snapshot's `Config` does not define, so pydantic raises `AttributeError`
there on the first token — before the debounce gate
(`_is_recently_unfurled`), any `create_slack_message`, any
`chat.postMessage` attempt and any store write.
-/

/-- The token loop of the base `DomainUnfurler.process_slack` as this
snapshot executes it: the first iteration's staleness check raises
`AttributeError` for the missing `slack_trigger_message_ttl` config
attribute, aborting the run with no sends and no store writes. -/
def processSlackRunGo : List String → List (String × Int) →
    List (String × Int) × List Send × Option PyErr
  | [], store => (store, [], none)
  | _ :: _, store =>
    (store, [], some (.attributeError "slack_trigger_message_ttl"))

/-- The base `DomainUnfurler.process_slack` as this snapshot executes it,
parameterized over the abstract `extract_tokens`. -/
def processSlackRun (extractT : SlackMessage → List String)
    (m : SlackMessage) (store : List (String × Int)) :
    List (String × Int) × List Send × Option PyErr :=
  processSlackRunGo (extractT m) store

/-- C1 (code-bug evaluation): dispatching the same one-token message
twice through the base pipeline: each run raises `AttributeError` at the
staleness check (`Config` has no `slack_trigger_message_ttl`), leaving
the store unchanged with zero sends.  No debounce record is ever written,
so the second run's `has_event` gate — the mechanism the claim relies
on — finds nothing, and is in fact never consulted. -/
theorem claim1_code_bug_eval :
    processSlackRun wExtract wMsg []
        = ([], [], some (.attributeError "slack_trigger_message_ttl"))
    ∧ processSlackRun wExtract wMsg (processSlackRun wExtract wMsg []).1
        = ([], [], some (.attributeError "slack_trigger_message_ttl"))
    ∧ hasEvent 300 (processSlackRun wExtract wMsg []).1 10
        wMsg.channel wMsg.threadTs "DM-1" = false := by
  decide

/-- C10 (code-bug evaluation): for a trigger message with an empty
channel the pipeline as shipped makes no send attempt at all — it raises
at the staleness check before ever reaching `_send_unfurl` — and writes
nothing; while `_send_unfurl` itself, handed the empty-channel reply the
Jira formatter would build from this trigger, does perform the post
without recording. -/
theorem claim10_code_bug_eval :
    processSlackRun wExtract wMsgE []
        = ([], [], some (.attributeError "slack_trigger_message_ttl"))
    ∧ (sendUnfurl [] 0 ⟨some "", none⟩ "DM-1" true).2.1
        = [⟨some "", none, "DM-1"⟩]
    ∧ (sendUnfurl [] 0 ⟨some "", none⟩ "DM-1" true).1 = [] := by
  decide

end Unfurlbot
